import Mathlib

/-!
Verification of the Blender-File-Finder core (src/src-tauri/src/lib.rs):
a shallow embedding of the .blend header/block decoder, the scan worker,
the tree builder and the poll view of a scan job, together with theorems
about the specified properties.

Modelling conventions:

* A file's contents are a `List Nat` of bytes; the open file handle is a
  cursor position into that list.  `read_exact` succeeds iff the request
  fits inside the data, consuming exactly the requested bytes; a failed
  `read_exact` leaves the cursor at end of data (a `File` read consumes
  up to EOF before reporting `UnexpectedEof`), and forward `seek`s always
  succeed, as they do on a real file (seeking past EOF is legal).
* Fixed-width integers are `Nat`/`Int` reduced mod 2^32 / 2^64 where the
  source uses `u32`/`i32`/`usize`; `i32` arithmetic is two's-complement
  wrapping, the release-profile semantics of the shipped binary.
* Block ids are compared as raw bytes: the source builds the id with
  `String::from_utf8_lossy(&header_buf[0..4])` and tests
  `starts_with("TEST")` etc.; for a pure-ASCII pattern such a test holds
  iff the corresponding id bytes equal the pattern's ASCII bytes, since
  lossy decoding maps an ASCII byte to itself and never produces an
  ASCII character from a non-ASCII byte.
* The scene-payload search (`from_utf8_lossy`, `to_uppercase`,
  `contains`) is modelled byte-wise with ASCII uppercasing; for the
  ASCII patterns `CYCLES`/`EEVEE`/`WORKBENCH` this agrees with the
  source on ASCII payload content.
-/

/-- Structure `BlendInfo` (lib.rs:20-30): metadata decoded from one candidate file. -/
structure BlendInfo where
  version : Option String
  raw : Option String
  pointer_size : Option Nat
  endianness : Option String
  thumbnail : Option String
  thumb_width : Option Int
  thumb_height : Option Int
  render_engine : Option String
  error : Option String
deriving DecidableEq

/-- Little/big-endian `u32` from the first four of a list of bytes, as in
`u32::from_le_bytes` / `u32::from_be_bytes` applied to `header_buf[4..8]`
(lib.rs:230-234). -/
def readU32 (isLittle : Bool) (b : List Nat) : Nat :=
  let b0 := b.getD 0 0
  let b1 := b.getD 1 0
  let b2 := b.getD 2 0
  let b3 := b.getD 3 0
  (if isLittle then b0 + 256 * b1 + 65536 * b2 + 16777216 * b3
   else b3 + 256 * b2 + 65536 * b1 + 16777216 * b0) % 4294967296

/-- Reinterpret a `u32` bit pattern as an `i32` value. -/
def toI32 (n : Nat) : Int :=
  let m := n % 4294967296
  if m < 2147483648 then (m : Int) else (m : Int) - 4294967296

/-- Decode `i32::from_le_bytes` / `i32::from_be_bytes` on four bytes (lib.rs:239-249). -/
def readI32 (isLittle : Bool) (b : List Nat) : Int := toI32 (readU32 isLittle b)

/-- Two's-complement wrap of an integer into `i32` range: the behaviour of the
release-mode `i32` arithmetic computing `width * height * 4` (lib.rs:251). -/
def wrap32 (z : Int) : Int :=
  let m := z % 4294967296
  if m < 2147483648 then m else m - 4294967296

/-- Model of `as usize` on an `i32` value: sign-extend to 64 bits and reinterpret as
unsigned (lib.rs:251). -/
def i32AsUsize (z : Int) : Nat := (z % 18446744073709551616).toNat

/-- Model of `read_exact` of `n` bytes at cursor `pos`: succeeds iff the request lies
inside the data. -/
def readAt (data : List Nat) (pos n : Nat) : Option (List Nat) :=
  if pos + n ≤ data.length then some ((data.drop pos).take n) else none

/-- Cursor position after a failed `read_exact`: the read consumes up to end
of file (or stays put when the cursor was already past it). -/
def failPos (data : List Nat) (pos : Nat) : Nat := max pos data.length

/-- The standard base64 alphabet (`BASE64_STANDARD`), as ASCII codes. -/
def b64Alphabet : List Nat :=
  (List.range 26).map (· + 65) ++ (List.range 26).map (· + 97) ++
    (List.range 10).map (· + 48) ++ [43, 47]

/-- One base64 digit. -/
def b64Digit (n : Nat) : Nat := b64Alphabet.getD n 65

/-- Standard base64 with `=` padding, as `BASE64_STANDARD.encode` (lib.rs:255). -/
def b64Encode : List Nat → List Nat
  | b0 :: b1 :: b2 :: rest =>
      b64Digit (b0 / 4) :: b64Digit ((b0 % 4) * 16 + b1 / 16) ::
        b64Digit ((b1 % 16) * 4 + b2 / 64) :: b64Digit (b2 % 64) :: b64Encode rest
  | [b0, b1] =>
      [b64Digit (b0 / 4), b64Digit ((b0 % 4) * 16 + b1 / 16),
        b64Digit ((b1 % 16) * 4), 61]
  | [b0] => [b64Digit (b0 / 4), b64Digit ((b0 % 4) * 16), 61, 61]
  | [] => []

/-- Pack ASCII codes into a string. -/
def bytesToString (bs : List Nat) : String := String.mk (bs.map Char.ofNat)

/-- ASCII uppercase of one byte: models `str::to_uppercase` on ASCII content. -/
def asciiUpper (b : Nat) : Nat := if 97 ≤ b ∧ b ≤ 122 then b - 32 else b

/-- Byte-substring test: models `str::contains` for an ASCII pattern. -/
def containsBytes : List Nat → List Nat → Bool
  | hay, needle =>
    if needle.isPrefixOf hay then true
    else
      match hay with
      | [] => false
      | _ :: t => containsBytes t needle

/-- ASCII codes of `"CYCLES"`. -/
def cyclesBytes : List Nat := [67, 89, 67, 76, 69, 83]

/-- ASCII codes of `"EEVEE"`. -/
def eeveeBytes : List Nat := [69, 69, 86, 69, 69]

/-- ASCII codes of `"WORKBENCH"`. -/
def workbenchBytes : List Nat := [87, 79, 82, 75, 66, 69, 78, 67, 72]

/-- The engine derived from one (already uppercased) scene payload:
`CYCLES`, then `EEVEE`, then `WORKBENCH`, first match wins (lib.rs:271-277). -/
def scanEngine (up : List Nat) : Option String :=
  if containsBytes up cyclesBytes then some "Cycles"
  else if containsBytes up eeveeBytes then some "Eevee"
  else if containsBytes up workbenchBytes then some "Workbench"
  else none

/-- ASCII codes of `"TEST"`. -/
def testBytes : List Nat := [84, 69, 83, 84]

/-- ASCII codes of `"SC"`. -/
def scBytes : List Nat := [83, 67]

/-- ASCII codes of `"DNA1"`. -/
def dna1Bytes : List Nat := [68, 78, 65, 49]

/-- ASCII codes of `"ENDB"`. -/
def endbBytes : List Nat := [69, 78, 68, 66]

/-- Model of `id.starts_with(pat)` for the pure-ASCII patterns used by the scanner, as
a byte-prefix test on the four id bytes of the block header. -/
def idStarts (hdr pat : List Nat) : Bool := pat.isPrefixOf (hdr.take 4)

/-- Outcome of one iteration of the block-scan loop: continue with the new
cursor position, block count and info, or leave the loop with them. -/
inductive StepRes where
  | cont (pos searched : Nat) (info : BlendInfo)
  | stop (pos searched : Nat) (info : BlendInfo)
deriving DecidableEq

/-- The info carried by a step outcome. -/
def StepRes.info : StepRes → BlendInfo
  | .cont _ _ i => i
  | .stop _ _ i => i

/-- The cursor position carried by a step outcome. -/
def StepRes.posn : StepRes → Nat
  | .cont p _ _ => p
  | .stop p _ _ => p

/-- One iteration of the `loop` in `parse_blocks` (lib.rs:223-284): read one
block header of `hlen` bytes and process the block.
`TEST`: read width/height, read the thumbnail payload when
`0 < dataSize < 10 MiB`, then skip `size - (8 + dataSize)` forward when
positive — the skip is computed whether or not the payload was read.
`SC`: read the declared payload and match the engine patterns.
`DNA1`/`ENDB`, or more than 3000 blocks: leave the loop.
Anything else: skip the declared payload length. -/
def stepBlock (data : List Nat) (isLittle : Bool) (hlen : Nat)
    (pos searched : Nat) (info : BlendInfo) : StepRes :=
  match readAt data pos hlen with
  | none => .stop pos searched info
  | some hdr =>
    let pos := pos + hlen
    let searched := searched + 1
    let size := readU32 isLittle (hdr.drop 4)
    if idStarts hdr testBytes then
      match readAt data pos 8 with
      | none => .cont (failPos data pos) searched info
      | some th =>
        let width := readI32 isLittle (th.take 4)
        let height := readI32 isLittle (th.drop 4)
        let dataSize := i32AsUsize (wrap32 (width * height * 4))
        let skipTail := fun p => if size > 8 + dataSize then p + (size - (8 + dataSize)) else p
        if 0 < dataSize ∧ dataSize < 10485760 then
          match readAt data (pos + 8) dataSize with
          | some rgba =>
              .cont (skipTail (pos + 8 + dataSize)) searched
                { info with thumbnail := some (bytesToString (b64Encode rgba)),
                            thumb_width := some width, thumb_height := some height }
          | none => .cont (skipTail (failPos data (pos + 8))) searched info
        else .cont (skipTail (pos + 8)) searched info
    else if idStarts hdr scBytes then
      match readAt data pos size with
      | none => .cont (failPos data pos) searched info
      | some sc =>
        let up := sc.map asciiUpper
        if containsBytes up cyclesBytes then
          .cont (pos + size) searched { info with render_engine := some "Cycles" }
        else if containsBytes up eeveeBytes then
          .cont (pos + size) searched { info with render_engine := some "Eevee" }
        else if containsBytes up workbenchBytes then
          .cont (pos + size) searched { info with render_engine := some "Workbench" }
        else .cont (pos + size) searched info
    else if idStarts hdr dna1Bytes ∨ idStarts hdr endbBytes ∨ searched > 3000 then
      .stop pos searched info
    else
      .cont (pos + size) searched info

/-- The block-scan loop, driven by fuel; one unit of fuel per block header.
`parse_blocks` supplies fuel `data.length + 1`; since every iteration
consumes at least a full block header this is never the binding constraint
(theorem for claim C4 below makes that precise). -/
def scanLoop (data : List Nat) (isLittle : Bool) (hlen : Nat) :
    Nat → Nat → Nat → BlendInfo → Nat × Nat × BlendInfo
  | 0, pos, searched, info => (pos, searched, info)
  | fuel + 1, pos, searched, info =>
    match stepBlock data isLittle hlen pos searched info with
    | .stop p s i => (p, s, i)
    | .cont p s i => scanLoop data isLittle hlen fuel p s i

/-- Model of `parse_blocks` (lib.rs:205-287): seek to byte 12 and scan block headers of
length `4 + 4 + ptrSize/8 + 4 + 4`.  On an in-memory byte stream none of the
source's `?` operations can fail: `try_into` on four-byte slices always
succeeds and forward seeks on a file always succeed, so the `Result` is
always `Ok`; the model therefore returns the final info together with the
final cursor position and the number of block headers scanned. -/
def parse_blocks (info : BlendInfo) (data : List Nat) (ptrSize : Option Nat) :
    BlendInfo × Nat × Nat :=
  let isLittle := info.endianness ≠ some "big"
  let psize := (ptrSize.getD 64) / 8
  let hlen := 4 + 4 + psize + 4 + 4
  let r := scanLoop data isLittle hlen (data.length + 1) 12 0 info
  (r.2.2, r.1, r.2.1)

/-- Continuation-byte test for UTF-8 decoding. -/
def isCont (b : Nat) : Bool := decide (128 ≤ b ∧ b ≤ 191)

/-- Code points produced by `String::from_utf8_lossy`: maximal-subpart
replacement, one U+FFFD per maximal invalid subsequence (the WHATWG and
Rust policy).  Fuel-driven; `fuel ≥ bs.length` suffices since every step
consumes at least one byte. -/
def utf8Go : Nat → List Nat → List Nat
  | 0, _ => []
  | _ + 1, [] => []
  | fuel + 1, b :: rest =>
    if b < 128 then b :: utf8Go fuel rest
    else if 194 ≤ b ∧ b ≤ 223 then
      match rest with
      | b2 :: rest2 =>
        if isCont b2 then ((b - 192) * 64 + (b2 - 128)) :: utf8Go fuel rest2
        else 65533 :: utf8Go fuel rest
      | [] => [65533]
    else if 224 ≤ b ∧ b ≤ 239 then
      let lo2 := if b = 224 then 160 else 128
      let hi2 := if b = 237 then 159 else 191
      match rest with
      | b2 :: rest2 =>
        if lo2 ≤ b2 ∧ b2 ≤ hi2 then
          match rest2 with
          | b3 :: rest3 =>
            if isCont b3 then
              ((b - 224) * 4096 + (b2 - 128) * 64 + (b3 - 128)) :: utf8Go fuel rest3
            else 65533 :: utf8Go fuel rest2
          | [] => [65533]
        else 65533 :: utf8Go fuel rest
      | [] => [65533]
    else if 240 ≤ b ∧ b ≤ 244 then
      let lo2 := if b = 240 then 144 else 128
      let hi2 := if b = 244 then 143 else 191
      match rest with
      | b2 :: rest2 =>
        if lo2 ≤ b2 ∧ b2 ≤ hi2 then
          match rest2 with
          | b3 :: rest3 =>
            if isCont b3 then
              match rest3 with
              | b4 :: rest4 =>
                if isCont b4 then
                  ((b - 240) * 262144 + (b2 - 128) * 4096 + (b3 - 128) * 64 + (b4 - 128)) ::
                    utf8Go fuel rest4
                else 65533 :: utf8Go fuel rest3
              | [] => [65533]
            else 65533 :: utf8Go fuel rest2
          | [] => [65533]
        else 65533 :: utf8Go fuel rest
      | [] => [65533]
    else 65533 :: utf8Go fuel rest

/-- The code points of `String::from_utf8_lossy bs`. -/
def utf8LossyCps (bs : List Nat) : List Nat := utf8Go bs.length bs

/-- Whether a byte sequence is valid UTF-8 (decodes cleanly, without any
replacement): the strict counterpart of `utf8Go`, written from the UTF-8
validity rules the spec's "decode cleanly" refers to. -/
def utf8ValidGo : Nat → List Nat → Bool
  | _, [] => true
  | 0, _ :: _ => false
  | fuel + 1, b :: rest =>
    if b < 128 then utf8ValidGo fuel rest
    else if 194 ≤ b ∧ b ≤ 223 then
      match rest with
      | b2 :: rest2 => isCont b2 && utf8ValidGo fuel rest2
      | [] => false
    else if 224 ≤ b ∧ b ≤ 239 then
      let lo2 := if b = 224 then 160 else 128
      let hi2 := if b = 237 then 159 else 191
      match rest with
      | b2 :: rest2 =>
        match rest2 with
        | b3 :: rest3 =>
          decide (lo2 ≤ b2 ∧ b2 ≤ hi2) && isCont b3 && utf8ValidGo fuel rest3
        | [] => false
      | [] => false
    else if 240 ≤ b ∧ b ≤ 244 then
      let lo2 := if b = 240 then 144 else 128
      let hi2 := if b = 244 then 143 else 191
      match rest with
      | b2 :: rest2 =>
        match rest2 with
        | b3 :: rest3 =>
          match rest3 with
          | b4 :: rest4 =>
            decide (lo2 ≤ b2 ∧ b2 ≤ hi2) && isCont b3 && isCont b4 &&
              utf8ValidGo fuel rest4
          | [] => false
        | [] => false
      | [] => false
    else false

/-- Valid-UTF-8 test on a byte list. -/
def utf8ValidBytes (bs : List Nat) : Bool := utf8ValidGo bs.length bs

/-- A `BlendInfo` with only the error field set: the early-return shape in
`parse_blend_header` (lib.rs:121-161). -/
def errInfo (e : String) : BlendInfo :=
  { version := none, raw := none, pointer_size := none, endianness := none,
    thumbnail := none, thumb_width := none, thumb_height := none,
    render_engine := none, error := some e }

/-- A `BlendInfo` with nothing set yet. -/
def emptyInfo : BlendInfo :=
  { version := none, raw := none, pointer_size := none, endianness := none,
    thumbnail := none, thumb_width := none, thumb_height := none,
    render_engine := none, error := none }

/-- ASCII codes of `"BLENDER"`. -/
def blenderMagic : List Nat := [66, 76, 69, 78, 68, 69, 82]

/-- The fields `parse_blend_header` computes from a valid 12-byte header
before the block scan (lib.rs:164-194). -/
def headerInfo (data : List Nat) : BlendInfo :=
  let b7 := data.getD 7 0
  let b8 := data.getD 8 0
  let pointer_size : Option Nat :=
    if b7 = 45 then some 64 else if b7 = 95 then some 32 else none
  let endianness : Option String :=
    if b8 = 118 then some "little" else if b8 = 86 then some "big" else some "unknown"
  let rawCps := utf8LossyCps ((data.drop 9).take 3)
  let raw := String.mk (rawCps.map Char.ofNat)
  let version : Option String :=
    if rawCps.length = 3 then
      some (String.mk [Char.ofNat (rawCps.getD 0 0), '.', Char.ofNat (rawCps.getD 1 0),
        '.', Char.ofNat (rawCps.getD 2 0)])
    else none
  { version := version, raw := some raw, pointer_size := pointer_size,
    endianness := endianness, thumbnail := none, thumb_width := none,
    thumb_height := none, render_engine := none, error := none }

/-- Model of `parse_blend_header` (lib.rs:117-203) on the file's bytes.  The
`File::open` failure path lies outside the byte-stream model; a failing
12-byte header read is a stream shorter than 12 bytes.  The `Err` wrapping
of the block scan (lib.rs:197-200) is unreachable here because
`parse_blocks` cannot fail on an in-memory stream. -/
def parse_blend_header (data : List Nat) : BlendInfo :=
  if data.length < 12 then errInfo "Unable to read header"
  else if data.take 7 ≠ blenderMagic then errInfo "Not a blend file"
  else (parse_blocks (headerInfo data) data (headerInfo data).pointer_size).1

/-- The first twelve bytes parse as a recognized header. -/
def validHeader (data : List Nat) : Prop :=
  12 ≤ data.length ∧ data.take 7 = blenderMagic

instance (data : List Nat) : Decidable (validHeader data) := by
  unfold validHeader; infer_instance

/-- The count carried by a step outcome. -/
def StepRes.searchedOf : StepRes → Nat
  | .cont _ s _ => s
  | .stop _ s _ => s

/-- The header-derived fields of a `BlendInfo` that the block scan never
touches, bundled for invariance statements. -/
def headerFields (i : BlendInfo) :
    Option String × Option String × Option Nat × Option String × Option String :=
  (i.version, i.raw, i.pointer_size, i.endianness, i.error)

-- -----------------------------
-- Tree builder (lib.rs:292-343)
-- -----------------------------

/-- Structure `FileMeta` (lib.rs:33-39). -/
structure FileMeta where
  size_bytes : Nat
  created : Option String
  modified : Option String
  folder : String
  blender : BlendInfo
deriving DecidableEq

/-- Structure `TreeNode` (lib.rs:42-48). -/
inductive TreeNode where
  | mk (node_type : String) (name : String) (path : String)
      (meta : Option FileMeta) (children : Option (List TreeNode))

/-- The `node_type` field (`"dir"` or `"file"`). -/
def TreeNode.node_type : TreeNode → String
  | .mk t _ _ _ _ => t

/-- The `name` field. -/
def TreeNode.name : TreeNode → String
  | .mk _ n _ _ _ => n

/-- The `children` field. -/
def TreeNode.children : TreeNode → Option (List TreeNode)
  | .mk _ _ _ _ c => c

/-- Structure `DirNode` (lib.rs:292-295): the accumulating tree builder.  The source's
`BTreeMap<String, DirNode>` is modelled as an association list kept sorted
by key, matching the map's ascending iteration order; Rust's `String`
ordering (byte-lexicographic) agrees with Lean's `String` order
(code-point-lexicographic) because UTF-8 byte order coincides with code
point order.  `files` keeps `(name, full_path, meta)` in push order. -/
inductive DirNode where
  | mk (dirs : List (String × DirNode)) (files : List (String × String × FileMeta))

/-- The sub-directory map of a `DirNode`. -/
def DirNode.dirs : DirNode → List (String × DirNode)
  | .mk d _ => d

/-- The file list of a `DirNode`. -/
def DirNode.files : DirNode → List (String × String × FileMeta)
  | .mk _ f => f

/-- Model of `BTreeMap::entry(k).or_insert_with(default)` followed by updating the
entry in place: insert `k` at its sorted position when absent, otherwise
apply `f` to the existing subtree. -/
def updateSorted (l : List (String × DirNode)) (k : String) (f : DirNode → DirNode) :
    List (String × DirNode) :=
  match l with
  | [] => [(k, f (.mk [] []))]
  | (k0, v) :: t =>
    if k < k0 then (k, f (.mk [] [])) :: (k0, v) :: t
    else if k = k0 then (k0, f v) :: t
    else (k0, v) :: updateSorted t k f

/-- Model of `insert_file` (lib.rs:298-314): walk/create the directory chain named by
`parts` and push `(name, path, meta)` onto that directory's file list. -/
def insert_file : DirNode → List String → String → String → FileMeta → DirNode
  | .mk dirs files, [], name, path, meta => .mk dirs (files ++ [(name, path, meta)])
  | .mk dirs files, part :: rest, name, path, meta =>
    .mk (updateSorted dirs part (fun sub => insert_file sub rest name path meta)) files

/-- Model of `Path::join`, with the platform separator abstracted to `/`; no claim
inspects the joined string. -/
def pathJoin (p n : String) : String := p ++ "/" ++ n

mutual
/-- Model of `build_tree_nodes` (lib.rs:316-343): render a directory — sub-directories
first, in map (sorted) order, then files in list (insertion) order. -/
def build_tree_nodes : DirNode → String → String → TreeNode
  | .mk dirs files, name, path =>
    .mk "dir" name path none
      (some (buildDirChildren dirs path ++
        files.map (fun fe => .mk "file" fe.1 fe.2.1 (some fe.2.2) none)))

/-- The `for (dname, dnode) in dir.dirs.iter()` loop of `build_tree_nodes`. -/
def buildDirChildren : List (String × DirNode) → String → List TreeNode
  | [], _ => []
  | (dname, dnode) :: t, path =>
    build_tree_nodes dnode dname (pathJoin path dname) :: buildDirChildren t path
end

/-- First-match lookup in the directory association list. -/
def getDir (l : List (String × DirNode)) (k : String) : Option DirNode :=
  match l with
  | [] => none
  | (k0, v) :: t => if k = k0 then some v else getDir t k

/-- The file names recorded in the builder at a directory path, in list
order. -/
def fileNamesAt : DirNode → List String → List String
  | .mk _ files, [] => files.map (·.1)
  | .mk dirs _, s :: rest =>
    match getDir dirs s with
    | some sub => fileNamesAt sub rest
    | none => []

/-- The names of the file children of the rendered tree node reached by
following directory-child names along `segs`, in child order. -/
def treeFileNamesAt : TreeNode → List String → List String
  | .mk _ _ _ _ children, [] =>
    (((children.getD []).filter (fun c => c.node_type = "file")).map (·.name))
  | .mk _ _ _ _ children, s :: rest =>
    match (children.getD []).find? (fun c => c.node_type == "dir" && c.name == s) with
    | some c => treeFileNamesAt c rest
    | none => []

/-- Builder well-formedness: every directory level is strictly sorted by
key, as a `BTreeMap` is. -/
inductive DWF : DirNode → Prop where
  | mk (dirs : List (String × DirNode)) (files : List (String × String × FileMeta))
      (hsort : dirs.Pairwise (fun a b => a.1 < b.1))
      (hrec : ∀ p ∈ dirs, DWF p.2) :
      DWF (.mk dirs files)

/-- The rendered-tree shape claim C9 describes: at every directory node the
children are the sub-directory nodes first, strictly sorted by name, then
the file nodes. -/
inductive TreeSorted : TreeNode → Prop where
  | file (n p : String) (m : FileMeta) : TreeSorted (.mk "file" n p (some m) none)
  | dir (n p : String) (ds fs : List TreeNode)
      (hds : ∀ t ∈ ds, t.node_type = "dir")
      (hfs : ∀ t ∈ fs, t.node_type = "file")
      (hsort : ds.Pairwise (fun a b => a.name < b.name))
      (hrec : ∀ t ∈ ds, TreeSorted t) :
      TreeSorted (.mk "dir" n p none (some (ds ++ fs)))

/-- One `insert_file` call as data, for stating discovery-order results. -/
structure InsOp where
  parts : List String
  name : String
  path : String
  meta : FileMeta

/-- The builder produced by a sequence of `insert_file` calls on an empty
root. -/
def applyOps (ops : List InsOp) : DirNode :=
  ops.foldl (fun d o => insert_file d o.parts o.name o.path o.meta) (.mk [] [])

-- -----------------------------
-- Scan worker (lib.rs:362-496)
-- -----------------------------

/-- Structure `FlatFile` (lib.rs:51-61). -/
structure FlatFile where
  name : String
  path : String
  folder : String
  size_bytes : Nat
  created : Option String
  modified : Option String
  blender_version : Option String
  thumbnail : Option String
  render_engine : Option String
deriving DecidableEq

/-- What `p.metadata()` yields when it succeeds: the size and the already
rfc3339-formatted timestamps (`chrono` formatting is treated as data). -/
structure FileStat where
  size_bytes : Nat
  created : Option String
  modified : Option String
deriving DecidableEq

/-- One successful `WalkDir` entry, carrying the path-derived values the
worker computes from `std::path` (`is_file`, `extension`, `file_name`,
`parent`, the components of the root-relative parent) together with the
`metadata()` outcome and the file's bytes. -/
structure EntryOk where
  path : String
  isFile : Bool
  ext : Option String
  stat : Option FileStat
  content : List Nat
  name : String
  folder : String
  relParts : List String
deriving DecidableEq

/-- One `WalkDir` iteration result. -/
inductive Entry where
  | ok (e : EntryOk)
  | err (msg : String)

/-- ASCII lowercase of one character: models `str::to_lowercase` on ASCII
extensions. -/
def lowerChar (c : Char) : Char :=
  if 65 ≤ c.toNat ∧ c.toNat ≤ 90 then Char.ofNat (c.toNat + 32) else c

/-- ASCII lowercase of a string. -/
def lowerStr (s : String) : String := String.mk (s.data.map lowerChar)

/-- The worker's accumulating state: the two progress counters, the current
path diagnostic, the flat list and the tree builder. -/
structure WorkerState where
  scanned : Nat
  found : Nat
  current_path : Option String
  files : List FlatFile
  builder : DirNode

/-- Worker state before the traversal. -/
def initWorker : WorkerState := ⟨0, 0, none, [], .mk [] []⟩

/-- One iteration of the `for entry in WalkDir ...` loop (lib.rs:393-479). -/
def stepEntry (st : WorkerState) (entry : Entry) : WorkerState :=
  match entry with
  | .err msg => { st with current_path := some ("(walk error) " ++ msg) }
  | .ok e =>
    let st := { st with scanned := st.scanned + 1, current_path := some e.path }
    if !e.isFile then st
    else if lowerStr (e.ext.getD "") ≠ "blend" then st
    else
      let st := { st with found := st.found + 1 }
      match e.stat with
      | none => st
      | some m =>
        let blend := parse_blend_header e.content
        let fm : FileMeta :=
          ⟨m.size_bytes, m.created, m.modified, e.folder, blend⟩
        let ff : FlatFile :=
          ⟨e.name, e.path, e.folder, m.size_bytes, m.created, m.modified,
            blend.version, blend.thumbnail, blend.render_engine⟩
        { st with files := st.files ++ [ff],
                  builder := insert_file st.builder e.relParts e.name e.path fm }

/-- The whole traversal loop. -/
def runWorker (entries : List Entry) : WorkerState := entries.foldl stepEntry initWorker

/-- Structure `ScanResult` (lib.rs:63-67). -/
structure ScanResult where
  tree : TreeNode
  files : List FlatFile

/-- What the worker stores as the job result on completion (lib.rs:482-484). -/
def workerResult (entries : List Entry) (rootName rootPath : String) : ScanResult :=
  let st := runWorker entries
  ⟨build_tree_nodes st.builder rootName rootPath, st.files⟩

/-- The pollable per-job state: status string and optional result. -/
structure JobState where
  status : String
  result : Option ScanResult

/-- The sequence of states a job's shared fields pass through: created with
status `scanning` and no result (lib.rs:94-104, 380-382), then the result
is stored (lib.rs:486-488), then status flips to `done` (lib.rs:489-491).
A poll can observe any of these states. -/
def jobTrace (r : ScanResult) : List JobState :=
  [⟨"scanning", none⟩, ⟨"scanning", some r⟩, ⟨"done", some r⟩]

/-- The `(status, result)` part of the snapshot `poll_scan` returns
(lib.rs:509-527): the stored result is exposed only when status is
`done`. -/
def pollSnap (j : JobState) : String × Option ScanResult :=
  (j.status, if j.status = "done" then j.result else none)

-- -----------------------------
-- Concrete inputs used by counterexamples and witnesses
-- -----------------------------

/-- A valid 12-byte header: `BLENDER-v280`. -/
def exHdr12 : List Nat := blenderMagic ++ [45, 118, 50, 56, 48]

/-- A scene block whose payload is `CYCLES` (24-byte block header with code
`SC00`, little-endian length 6, then the payload). -/
def exScCycles : List Nat := [83, 67, 48, 48] ++ [6, 0, 0, 0] ++ List.replicate 16 0 ++ cyclesBytes

/-- A scene block whose payload is `EEVEE`. -/
def exScEevee : List Nat := [83, 67, 48, 48] ++ [5, 0, 0, 0] ++ List.replicate 16 0 ++ eeveeBytes

/-- A file with one `CYCLES` scene block. -/
def exC1One : List Nat := exHdr12 ++ exScCycles

/-- A file with a `CYCLES` scene block followed by an `EEVEE` scene block. -/
def exC1Two : List Nat := exHdr12 ++ exScCycles ++ exScEevee

/-- A `TEST` block declaring length 30 whose width/height (2048×2048) put the
thumbnail size at 16 MiB, above the 10 MiB bound, so the payload is not
read. -/
def exC2Big : List Nat :=
  [84, 69, 83, 84] ++ [30, 0, 0, 0] ++ List.replicate 16 0 ++ [0, 8, 0, 0, 0, 8, 0, 0]

/-- A `TEST` block declaring length 13 with a 1×1 thumbnail: 8 bytes of
dimensions, 4 payload bytes, 1 trailing byte inside the block. -/
def exC2Good : List Nat :=
  [84, 69, 83, 84] ++ [13, 0, 0, 0] ++ List.replicate 16 0 ++
    [1, 0, 0, 0, 1, 0, 0, 0] ++ [9, 9, 9, 9] ++ [0]

/-- The block header part of `exC2Good`. -/
def exC2GoodHdr : List Nat := [84, 69, 83, 84] ++ [13, 0, 0, 0] ++ List.replicate 16 0

/-- A scene block with an empty payload: 24 header bytes, declared length 0. -/
def scBlockEmpty : List Nat := [83, 67, 48, 48] ++ List.replicate 20 0

/-- A file made of 3002 consecutive empty scene blocks: every one of them is
scanned because the 3000-block cap is only tested for blocks that are
neither `TEST` nor `SC`. -/
def exC4Data : List Nat := exHdr12 ++ (List.replicate 3002 scBlockEmpty).flatten

/-- A `DNA1` block header (any trailing bytes; the scan stops at it). -/
def exDna1Data : List Nat := [68, 78, 65, 49] ++ List.replicate 20 0

/-- A `.blend`-matching traversal entry whose `metadata()` call fails. -/
def exStatFail : EntryOk :=
  ⟨"/r/a.blend", true, some "blend", none, [], "a.blend", "/r", []⟩

-- -----------------------------
-- Header-field invariance of the block scan
-- -----------------------------

/-- One scan step never touches the version, raw, pointer-size, endianness or
error fields: it only ever updates the thumbnail fields and the render
engine. -/
theorem stepBlock_headerFields (data : List Nat) (isLittle : Bool)
    (hlen pos searched : Nat) (info : BlendInfo) :
    headerFields (stepBlock data isLittle hlen pos searched info).info = headerFields info := by
  unfold stepBlock
  repeat' first
  | rfl
  | split
  | dsimp only

/-- The whole scan loop preserves the header-derived fields. -/
theorem scanLoop_headerFields (data : List Nat) (isLittle : Bool) (hlen : Nat) :
    ∀ fuel pos searched info,
      headerFields (scanLoop data isLittle hlen fuel pos searched info).2.2 = headerFields info := by
  intro fuel
  induction fuel with
  | zero => intro pos searched info; rfl
  | succ f ih =>
    intro pos searched info
    have h2 := stepBlock_headerFields data isLittle hlen pos searched info
    simp only [scanLoop]
    cases h : stepBlock data isLittle hlen pos searched info with
    | stop p s i =>
      rw [h] at h2
      exact h2
    | cont p s i =>
      rw [h] at h2
      rw [ih p s i]
      exact h2

/-- The function `headerInfo` only reads the first twelve bytes. -/
theorem headerInfo_take12 (data : List Nat) :
    headerInfo (data.take 12) = headerInfo data := by
  unfold headerInfo
  have h7 : (data.take 12).getD 7 0 = data.getD 7 0 := by
    simp [List.getD_eq_getElem?_getD, List.getElem?_take]
  have h8 : (data.take 12).getD 8 0 = data.getD 8 0 := by
    simp [List.getD_eq_getElem?_getD, List.getElem?_take]
  have h9 : ((data.take 12).drop 9).take 3 = (data.drop 9).take 3 := by
    rw [List.drop_take]; norm_num [List.take_take]
  rw [h7, h8, h9]

/-- On a valid header the decoder's result carries exactly the header-derived
fields: the block scan alters none of them. -/
theorem parse_blend_header_valid (data : List Nat) (h : validHeader data) :
    headerFields (parse_blend_header data) = headerFields (headerInfo data) := by
  obtain ⟨h1, h2⟩ := h
  unfold parse_blend_header
  rw [if_neg (by omega), if_neg (by simp [h2])]
  unfold parse_blocks
  dsimp only
  exact scanLoop_headerFields data _ _ _ 12 0 (headerInfo data)

/-- A bad header (short stream or wrong magic) yields the error-only shape
with a non-empty message. -/
theorem parse_blend_header_bad (data : List Nat)
    (h : data.length < 12 ∨ data.take 7 ≠ blenderMagic) :
    ∃ e, parse_blend_header data = errInfo e ∧ e ≠ "" := by
  unfold parse_blend_header
  by_cases h1 : data.length < 12
  · rw [if_pos h1]
    exact ⟨_, rfl, by decide⟩
  · have h2 : data.take 7 ≠ blenderMagic := h.resolve_left h1
    rw [if_neg h1, if_pos h2]
    exact ⟨_, rfl, by decide⟩

/-- C5: for every input whose first 12 bytes cannot be read, or whose bytes
0-6 are not the literal `BLENDER`, the decoder returns a `BlendInfo` with
only the error field set (all metadata fields `none`) and a non-empty error
string; being a total function, it raises nothing. -/
theorem blend_c5_bad_header (data : List Nat)
    (h : data.length < 12 ∨ data.take 7 ≠ blenderMagic) :
    ∃ e, parse_blend_header data = errInfo e ∧ e ≠ "" :=
  parse_blend_header_bad data h

/-- Witness for C5 at the concrete three-byte input `[0, 1, 2]`. -/
theorem blend_c5_bad_header_witness :
    ∃ e, parse_blend_header [0, 1, 2] = errInfo e ∧ e ≠ "" :=
  blend_c5_bad_header [0, 1, 2] (Or.inl (by decide))

/-- C6 counterexample: the version bytes `FF FF FF` do not decode cleanly as
UTF-8, yet the decoder still produces a version string (three replacement
characters joined by dots) rather than the `none` the claim requires. -/
theorem blend_c6_counterexample :
    utf8ValidBytes [255, 255, 255] = false ∧
      (parse_blend_header (blenderMagic ++ [45, 118, 255, 255, 255])).version =
        some (String.mk [Char.ofNat 65533, '.', Char.ofNat 65533, '.', Char.ofNat 65533]) ∧
      (parse_blend_header (blenderMagic ++ [45, 118, 255, 255, 255])).version ≠ none :=
  ⟨by decide, by decide, by decide⟩

/-- C6 (amended): for every valid header, the version comes from the lossy
decode of bytes 9-11 — invalid sequences become U+FFFD rather than failing —
and it is the three decoded characters joined literally by dots whenever
that decode yields exactly three characters, `none` otherwise; raw bytes
`280` give `2.8.0` and `401` give `4.0.1`. -/
theorem blend_c6_version_join :
    (∀ data, validHeader data →
      (parse_blend_header data).version =
        (if (utf8LossyCps ((data.drop 9).take 3)).length = 3 then
          some (String.mk [Char.ofNat ((utf8LossyCps ((data.drop 9).take 3)).getD 0 0), '.',
            Char.ofNat ((utf8LossyCps ((data.drop 9).take 3)).getD 1 0), '.',
            Char.ofNat ((utf8LossyCps ((data.drop 9).take 3)).getD 2 0)])
        else none)) ∧
    (parse_blend_header (blenderMagic ++ [45, 118, 50, 56, 48])).version = some "2.8.0" ∧
    (parse_blend_header (blenderMagic ++ [45, 118, 52, 48, 49])).version = some "4.0.1" := by
  refine ⟨?_, by decide, by decide⟩
  intro data h
  have hf := parse_blend_header_valid data h
  have hv := congrArg (fun t => t.1) hf
  dsimp only [headerFields] at hv
  rw [hv]
  rfl

/-- Witness for the universally quantified part of the C6 theorem at the
concrete `BLENDER-v280` input. -/
theorem blend_c6_version_join_witness :
    (parse_blend_header (blenderMagic ++ [45, 118, 50, 56, 48])).version =
      (if (utf8LossyCps (((blenderMagic ++ [45, 118, 50, 56, 48]).drop 9).take 3)).length = 3 then
        some (String.mk
          [Char.ofNat ((utf8LossyCps (((blenderMagic ++ [45, 118, 50, 56, 48]).drop 9).take 3)).getD 0 0), '.',
           Char.ofNat ((utf8LossyCps (((blenderMagic ++ [45, 118, 50, 56, 48]).drop 9).take 3)).getD 1 0), '.',
           Char.ofNat ((utf8LossyCps (((blenderMagic ++ [45, 118, 50, 56, 48]).drop 9).take 3)).getD 2 0)])
      else none) :=
  blend_c6_version_join.1 (blenderMagic ++ [45, 118, 50, 56, 48]) (by decide)

/-- C3: the decoder is a total function of the input bytes; its error field
is set exactly on the two header-failure paths (and then non-fatally), and
no block content — including attacker-controlled `TEST` width/height
fields, whose `i32` arithmetic wraps — can corrupt the header-derived
fields: they equal what the first twelve bytes alone produce. -/
theorem blend_c3_no_fatal_error (data : List Nat) :
    ((parse_blend_header data).error = none ↔ validHeader data) ∧
    (parse_blend_header data).version = (parse_blend_header (data.take 12)).version ∧
    (parse_blend_header data).raw = (parse_blend_header (data.take 12)).raw ∧
    (parse_blend_header data).pointer_size = (parse_blend_header (data.take 12)).pointer_size ∧
    (parse_blend_header data).endianness = (parse_blend_header (data.take 12)).endianness := by
  have hmin7 : (7 : Nat) ⊓ 12 = 7 := by norm_num
  by_cases hv : validHeader data
  · have hv12 : validHeader (data.take 12) := by
      obtain ⟨h1, h2⟩ := hv
      refine ⟨by simp [List.length_take]; omega, ?_⟩
      rw [List.take_take, hmin7]
      exact h2
    have ha := parse_blend_header_valid data hv
    have hb := parse_blend_header_valid _ hv12
    rw [headerInfo_take12] at hb
    have hab := ha.trans hb.symm
    have he : (parse_blend_header data).error = none :=
      (congrArg (fun t => t.2.2.2.2) ha).trans rfl
    refine ⟨⟨fun _ => hv, fun _ => he⟩, ?_, ?_, ?_, ?_⟩
    · exact congrArg (fun t => t.1) hab
    · exact congrArg (fun t => t.2.1) hab
    · exact congrArg (fun t => t.2.2.1) hab
    · exact congrArg (fun t => t.2.2.2.1) hab
  · by_cases h1 : data.length < 12
    · have ht : data.take 12 = data := List.take_of_length_le (by omega)
      rw [ht]
      obtain ⟨e, hpe, _⟩ := parse_blend_header_bad data (Or.inl h1)
      rw [hpe]
      refine ⟨?_, rfl, rfl, rfl, rfl⟩
      constructor
      · intro habs
        exact absurd habs (by simp [errInfo])
      · intro hval
        exact absurd hval hv
    · have h2 : data.take 7 ≠ blenderMagic := by
        intro hc
        exact hv ⟨by omega, hc⟩
      have h2' : (data.take 12).take 7 ≠ blenderMagic := by
        rw [List.take_take, hmin7]
        exact h2
      have hp1 : parse_blend_header data = errInfo "Not a blend file" := by
        unfold parse_blend_header
        rw [if_neg h1, if_pos h2]
      have hp2 : parse_blend_header (data.take 12) = errInfo "Not a blend file" := by
        unfold parse_blend_header
        rw [if_neg (by simp [List.length_take]; omega), if_pos h2']
      rw [hp1, hp2]
      refine ⟨?_, rfl, rfl, rfl, rfl⟩
      constructor
      · intro habs
        exact absurd habs (by simp [errInfo])
      · intro hval
        exact absurd hval hv

/-- Two ASCII id patterns with different first bytes cannot both match. -/
theorem idStarts_ne_of_head {p q : Nat} {ps qs : List Nat} (hdr : List Nat)
    (h : idStarts hdr (p :: ps) = true) (hne : q ≠ p) :
    idStarts hdr (q :: qs) = false := by
  unfold idStarts at *
  cases h4 : hdr.take 4 with
  | nil => rw [h4] at h; simp [List.isPrefixOf] at h
  | cons x xs =>
    rw [h4] at h
    simp only [List.isPrefixOf, Bool.and_eq_true, beq_iff_eq] at h
    obtain ⟨hpx, -⟩ := h
    subst hpx
    simp [List.isPrefixOf, beq_eq_false_iff_ne, hne]

/-- An `SC` block is not a `TEST` block. -/
theorem sc_not_test (hdr : List Nat) (h : idStarts hdr scBytes = true) :
    idStarts hdr testBytes = false :=
  idStarts_ne_of_head hdr h (by decide)

/-- Every step either leaves the loop with the state unchanged (header read
failure) or has consumed a full in-bounds block header, moving the cursor
at least past it and counting exactly one more block. -/
theorem stepBlock_progress (data : List Nat) (isLittle : Bool) (hlen pos searched : Nat)
    (info : BlendInfo) :
    stepBlock data isLittle hlen pos searched info = .stop pos searched info ∨
    (pos + hlen ≤ data.length ∧
     pos + hlen ≤ (stepBlock data isLittle hlen pos searched info).posn ∧
     (stepBlock data isLittle hlen pos searched info).searchedOf = searched + 1) := by
  cases hr : readAt data pos hlen with
  | none =>
    left
    unfold stepBlock
    rw [hr]
  | some hdr =>
    right
    have hle : pos + hlen ≤ data.length := by
      by_contra hc
      unfold readAt at hr
      rw [if_neg hc] at hr
      exact Option.noConfusion hr
    refine ⟨hle, ?_, ?_⟩
    · unfold stepBlock
      rw [hr]
      repeat' first
      | dsimp only
      | split
      all_goals simp only [StepRes.posn, failPos]
      all_goals omega
    · unfold stepBlock
      rw [hr]
      repeat' first
      | dsimp only
      | split
      all_goals rfl

/-- C1 (amended): when a block whose code starts with `SC` is scanned, the
decoder reads the full declared payload, uppercases it and searches for
`CYCLES`, `EEVEE`, `WORKBENCH` in that precedence order; the first match
sets the render-engine field, overwriting whatever an earlier scene block
had stored, and a scene block with no match (or whose payload read fails)
leaves the field unchanged. -/
theorem blend_c1_scene_engine (data : List Nat) (isLittle : Bool)
    (hlen pos searched : Nat) (info : BlendInfo) (hdr : List Nat)
    (hread : readAt data pos hlen = some hdr)
    (hsc : idStarts hdr scBytes = true) :
    stepBlock data isLittle hlen pos searched info =
      (match readAt data (pos + hlen) (readU32 isLittle (hdr.drop 4)) with
       | some sc => .cont (pos + hlen + readU32 isLittle (hdr.drop 4)) (searched + 1)
           { info with render_engine := (scanEngine (sc.map asciiUpper)).or info.render_engine }
       | none => .cont (failPos data (pos + hlen)) (searched + 1) info) := by
  have hnt : idStarts hdr testBytes = false := sc_not_test hdr hsc
  unfold stepBlock
  rw [hread]
  dsimp only
  rw [hnt, hsc]
  simp only [Bool.false_eq_true, if_false, if_true]
  cases hp : readAt data (pos + hlen) (readU32 isLittle (hdr.drop 4)) with
  | none => rfl
  | some sc =>
    dsimp only
    unfold scanEngine
    by_cases h1 : containsBytes (sc.map asciiUpper) cyclesBytes = true
    · simp only [h1, if_true]
      rfl
    · rw [Bool.not_eq_true] at h1
      by_cases h2 : containsBytes (sc.map asciiUpper) eeveeBytes = true
      · simp only [h1, h2, Bool.false_eq_true, if_false, if_true]
        rfl
      · rw [Bool.not_eq_true] at h2
        by_cases h3 : containsBytes (sc.map asciiUpper) workbenchBytes = true
        · simp only [h1, h2, h3, Bool.false_eq_true, if_false, if_true]
          rfl
        · rw [Bool.not_eq_true] at h3
          simp only [h1, h2, h3, Bool.false_eq_true, if_false]
          rfl

/-- Witness for C1 at a concrete `SC` block carrying a `CYCLES` payload. -/
theorem blend_c1_scene_engine_witness :
    stepBlock exC1One true 24 12 0 emptyInfo =
      .cont 42 1 { emptyInfo with render_engine := some "Cycles" } :=
  (blend_c1_scene_engine exC1One true 24 12 0 emptyInfo
    ([83, 67, 48, 48, 6, 0, 0, 0] ++ List.replicate 16 0) (by decide) (by decide)).trans
    (by decide)

/-- C1 counterexample: a `CYCLES` scene block followed by an `EEVEE` scene
block ends with render engine `Eevee` — the later scene block overwrites
the field, contradicting the claim that once set it is never
overwritten. -/
theorem blend_c1_counterexample :
    (parse_blend_header exC1One).render_engine = some "Cycles" ∧
      (parse_blend_header exC1Two).render_engine = some "Eevee" :=
  ⟨by decide, by decide⟩

/-- C2 (amended): the decoder never seeks backward — every step leaves the
cursor at or after where it started — and after a `TEST` block it lands
exactly at the end of the declared block length whenever the thumbnail
payload read succeeded and the declared length covers the `8 + dataSize`
bytes the skip computation assumes were consumed.  (When the payload is
not read — `dataSize` out of range or a failed read — the skip is still
computed as though `dataSize` bytes had been consumed, so the cursor can
fall short of the declared block end; see the counterexample.) -/
theorem blend_c2_test_advance :
    (∀ data isLittle hlen pos searched info,
        pos ≤ (stepBlock data isLittle hlen pos searched info).posn) ∧
    (∀ data isLittle hlen pos searched info hdr th rgba,
        readAt data pos hlen = some hdr →
        idStarts hdr testBytes = true →
        readAt data (pos + hlen) 8 = some th →
        0 < i32AsUsize (wrap32 (readI32 isLittle (th.take 4) * readI32 isLittle (th.drop 4) * 4)) →
        i32AsUsize (wrap32 (readI32 isLittle (th.take 4) * readI32 isLittle (th.drop 4) * 4)) < 10485760 →
        readAt data (pos + hlen + 8)
            (i32AsUsize (wrap32 (readI32 isLittle (th.take 4) * readI32 isLittle (th.drop 4) * 4)))
          = some rgba →
        8 + i32AsUsize (wrap32 (readI32 isLittle (th.take 4) * readI32 isLittle (th.drop 4) * 4))
          ≤ readU32 isLittle (hdr.drop 4) →
        stepBlock data isLittle hlen pos searched info =
          .cont (pos + hlen + readU32 isLittle (hdr.drop 4)) (searched + 1)
            { info with thumbnail := some (bytesToString (b64Encode rgba)),
                        thumb_width := some (readI32 isLittle (th.take 4)),
                        thumb_height := some (readI32 isLittle (th.drop 4)) }) := by
  constructor
  · intro data isLittle hlen pos searched info
    rcases stepBlock_progress data isLittle hlen pos searched info with h | ⟨-, h, -⟩
    · rw [h]
      exact Nat.le.refl
    · omega
  · intro data isLittle hlen pos searched info hdr th rgba hread htest hth h0 hub hrgba hsz
    unfold stepBlock
    rw [hread]
    dsimp only
    rw [htest]
    simp only [if_true]
    rw [hth]
    dsimp only
    rw [if_pos ⟨h0, hub⟩]
    rw [hrgba]
    dsimp only
    have harith : ∀ a b c : Nat, 8 + a ≤ b →
        (if b > 8 + a then c + 8 + a + (b - (8 + a)) else c + 8 + a) = c + b := by
      intro a b c hab
      split <;> omega
    rw [harith _ _ _ hsz]

/-- Witness for C2 at a concrete `TEST` block with a 1×1 thumbnail whose
declared length (13) exceeds the consumed `8 + 4` bytes: the cursor lands
at the declared block end `24 + 13 = 37`. -/
theorem blend_c2_test_advance_witness :
    stepBlock exC2Good true 24 0 0 emptyInfo =
      .cont 37 1 { emptyInfo with thumbnail := some (bytesToString (b64Encode [9, 9, 9, 9])),
                                  thumb_width := some 1, thumb_height := some 1 } :=
  (blend_c2_test_advance.2 exC2Good true 24 0 0 emptyInfo exC2GoodHdr
    [1, 0, 0, 0, 1, 0, 0, 0] [9, 9, 9, 9]
    (by decide) (by decide) (by decide) (by decide) (by decide) (by decide) (by decide)).trans
    (by decide)

/-- C2 counterexample: a `TEST` block declaring length 30 whose 2048×2048
dimensions put the thumbnail at 16 MiB — not read — leaves the cursor at
byte 32 (just past the dimensions), not at the declared block end 54: the
skip treats the unread `dataSize` bytes as consumed, so the stream is not
advanced to the end of the declared block length. -/
theorem blend_c2_counterexample :
    stepBlock exC2Big true 24 0 0 emptyInfo = .cont 32 1 emptyInfo ∧
      0 + 24 + readU32 true ((exC2Big.take 24).drop 4) = 54 ∧ (32 : Nat) ≠ 54 :=
  ⟨by decide, by decide, by decide⟩

/-- A `DNA1` or `ENDB` block stops the scan right after its header is read. -/
theorem stepBlock_stop_dna1_endb (data : List Nat) (isLittle : Bool)
    (hlen pos searched : Nat) (info : BlendInfo) (hdr : List Nat)
    (hread : readAt data pos hlen = some hdr)
    (h : idStarts hdr dna1Bytes = true ∨ idStarts hdr endbBytes = true) :
    stepBlock data isLittle hlen pos searched info = .stop (pos + hlen) (searched + 1) info := by
  have hnt : idStarts hdr testBytes = false := by
    rcases h with h | h
    · exact idStarts_ne_of_head hdr (show idStarts hdr (68 :: [78, 65, 49]) = true from h) (by decide)
    · exact idStarts_ne_of_head hdr (show idStarts hdr (69 :: [78, 68, 66]) = true from h) (by decide)
  have hns : idStarts hdr scBytes = false := by
    rcases h with h | h
    · exact idStarts_ne_of_head hdr (show idStarts hdr (68 :: [78, 65, 49]) = true from h) (by decide)
    · exact idStarts_ne_of_head hdr (show idStarts hdr (69 :: [78, 68, 66]) = true from h) (by decide)
  unfold stepBlock
  rw [hread]
  dsimp only
  rw [hnt, hns]
  simp only [Bool.false_eq_true, if_false]
  rcases h with h | h
  · rw [if_pos (Or.inl h)]
  · rw [if_pos (Or.inr (Or.inl h))]

/-- Once more than 3000 blocks have been counted, a block that is neither
`TEST` nor `SC` stops the scan — the cap is only tested on that branch. -/
theorem stepBlock_stop_cap (data : List Nat) (isLittle : Bool)
    (hlen pos searched : Nat) (info : BlendInfo) (hdr : List Nat)
    (hread : readAt data pos hlen = some hdr)
    (hnt : idStarts hdr testBytes = false)
    (hns : idStarts hdr scBytes = false)
    (hcap : 3000 < searched + 1) :
    stepBlock data isLittle hlen pos searched info = .stop (pos + hlen) (searched + 1) info := by
  unfold stepBlock
  rw [hread]
  dsimp only
  rw [hnt, hns]
  simp only [Bool.false_eq_true, if_false]
  rw [if_pos (Or.inr (Or.inr hcap))]

/-- Each counted block consumes at least `hlen` bytes of the stream, so the
count can rise by at most the number of unread bytes. -/
theorem scanLoop_searched_le (data : List Nat) (isLittle : Bool) (hlen : Nat)
    (hh : 1 ≤ hlen) :
    ∀ fuel pos searched info,
      (scanLoop data isLittle hlen fuel pos searched info).2.1 ≤ searched + (data.length - pos) := by
  intro fuel
  induction fuel with
  | zero => intro pos searched info; exact Nat.le_add_right _ _
  | succ f ih =>
    intro pos searched info
    simp only [scanLoop]
    rcases stepBlock_progress data isLittle hlen pos searched info with h | ⟨h1, h2, h3⟩
    · rw [h]
      exact Nat.le_add_right _ _
    · cases h : stepBlock data isLittle hlen pos searched info with
      | stop p s i =>
        rw [h] at h3
        simp only [StepRes.searchedOf] at h3
        dsimp only
        omega
      | cont p s i =>
        rw [h] at h2 h3
        simp only [StepRes.posn] at h2
        simp only [StepRes.searchedOf] at h3
        have := ih p s i
        dsimp only
        omega

/-- Fuel one past the unread byte count is already enough: one more unit
changes nothing. -/
theorem scanLoop_fuel_stable (data : List Nat) (isLittle : Bool) (hlen : Nat)
    (hh : 1 ≤ hlen) :
    ∀ fuel pos searched info, data.length - pos < fuel →
      scanLoop data isLittle hlen fuel pos searched info =
        scanLoop data isLittle hlen (fuel + 1) pos searched info := by
  intro fuel
  induction fuel with
  | zero => intro pos searched info h; omega
  | succ f ih =>
    intro pos searched info h
    simp only [scanLoop]
    rcases stepBlock_progress data isLittle hlen pos searched info with hs | ⟨h1, h2, h3⟩
    · rw [hs]
    · cases hstep : stepBlock data isLittle hlen pos searched info with
      | stop p s i => rfl
      | cont p s i =>
        rw [hstep] at h2
        simp only [StepRes.posn] at h2
        exact ih p s i (by omega)

/-- Adding any amount of fuel beyond the unread byte count changes nothing. -/
theorem scanLoop_fuel_add (data : List Nat) (isLittle : Bool) (hlen : Nat)
    (hh : 1 ≤ hlen) :
    ∀ k fuel pos searched info, data.length - pos < fuel →
      scanLoop data isLittle hlen fuel pos searched info =
        scanLoop data isLittle hlen (fuel + k) pos searched info := by
  intro k
  induction k with
  | zero => intro fuel pos searched info h; rfl
  | succ n ih =>
    intro fuel pos searched info h
    rw [ih fuel pos searched info h]
    exact scanLoop_fuel_stable data isLittle hlen hh (fuel + n) pos searched info (by omega)

/-- C4 (amended): the scan stops as soon as it reads a `DNA1` or `ENDB`
header; the 3000-block cap, however, is tested only for blocks that are
neither `TEST` nor `SC`, so those blocks can be scanned past the cap (see
the counterexample with 3002 scene blocks).  The loop still terminates on
every input: each counted header consumes at least the header length of
the finite stream, the count can exceed its starting value by at most the
number of unread bytes, and any fuel beyond the stream length leaves the
result unchanged. -/
theorem blend_c4_scan_stop :
    (∀ data isLittle hlen pos searched info hdr,
        readAt data pos hlen = some hdr →
        idStarts hdr dna1Bytes = true ∨ idStarts hdr endbBytes = true →
        stepBlock data isLittle hlen pos searched info = .stop (pos + hlen) (searched + 1) info) ∧
    (∀ data isLittle hlen pos searched info hdr,
        readAt data pos hlen = some hdr →
        idStarts hdr testBytes = false →
        idStarts hdr scBytes = false →
        3000 < searched + 1 →
        stepBlock data isLittle hlen pos searched info = .stop (pos + hlen) (searched + 1) info) ∧
    (∀ data isLittle hlen fuel pos searched info, 1 ≤ hlen →
        (scanLoop data isLittle hlen fuel pos searched info).2.1
          ≤ searched + (data.length - pos)) ∧
    (∀ data isLittle hlen k fuel pos searched info, 1 ≤ hlen → data.length - pos < fuel →
        scanLoop data isLittle hlen fuel pos searched info =
          scanLoop data isLittle hlen (fuel + k) pos searched info) := by
  refine ⟨?_, ?_, ?_, ?_⟩
  · intro data isLittle hlen pos searched info hdr hread h
    exact stepBlock_stop_dna1_endb data isLittle hlen pos searched info hdr hread h
  · intro data isLittle hlen pos searched info hdr hread hnt hns hcap
    exact stepBlock_stop_cap data isLittle hlen pos searched info hdr hread hnt hns hcap
  · intro data isLittle hlen fuel pos searched info hh
    exact scanLoop_searched_le data isLittle hlen hh fuel pos searched info
  · intro data isLittle hlen k fuel pos searched info hh h
    exact scanLoop_fuel_add data isLittle hlen hh k fuel pos searched info h

/-- Witness for C4 at a concrete `DNA1` block and concrete fuels. -/
theorem blend_c4_scan_stop_witness :
    stepBlock exDna1Data true 24 0 0 emptyInfo = .stop (0 + 24) (0 + 1) emptyInfo ∧
    stepBlock exDna1Data true 24 0 3001 emptyInfo = .stop (0 + 24) (3001 + 1) emptyInfo ∧
    (scanLoop exDna1Data true 24 5 0 0 emptyInfo).2.1 ≤ 0 + (exDna1Data.length - 0) ∧
    scanLoop exDna1Data true 24 25 0 0 emptyInfo =
      scanLoop exDna1Data true 24 (25 + 7) 0 0 emptyInfo :=
  ⟨blend_c4_scan_stop.1 exDna1Data true 24 0 0 emptyInfo ([68, 78, 65, 49] ++ List.replicate 20 0)
      (by decide) (Or.inl (by decide)),
   blend_c4_scan_stop.2.1 exDna1Data true 24 0 3001 emptyInfo
      ([68, 78, 65, 49] ++ List.replicate 20 0) (by decide) (by decide) (by decide) (by decide),
   blend_c4_scan_stop.2.2.1 exDna1Data true 24 5 0 0 emptyInfo (by decide),
   blend_c4_scan_stop.2.2.2 exDna1Data true 24 7 25 0 0 emptyInfo (by decide) (by decide)⟩

/-- The 3002-scene-block stream is 72060 bytes long. -/
theorem exC4_length : exC4Data.length = 72060 := by
  unfold exC4Data
  rw [List.length_append, List.length_flatten, List.map_replicate,
    show scBlockEmpty.length = 24 by decide, List.sum_replicate,
    show exHdr12.length = 12 by decide]
  simp [smul_eq_mul]

/-- Dropping the header and `m` whole scene blocks leaves the remaining
blocks. -/
theorem exC4_drop : ∀ m, m ≤ 3002 →
    exC4Data.drop (12 + 24 * m) = (List.replicate (3002 - m) scBlockEmpty).flatten := by
  intro m
  induction m with
  | zero =>
    intro _
    show exC4Data.drop 12 = _
    unfold exC4Data
    have h12 : exHdr12.length = 12 := by decide
    rw [← h12, List.drop_left]
  | succ n ih =>
    intro hn
    have harith : 12 + 24 * (n + 1) = 12 + 24 * n + 24 := by ring
    rw [harith, ← List.drop_drop, ih (by omega)]
    have hpos : 3002 - n = (3002 - (n + 1)) + 1 := by omega
    rw [hpos, List.replicate_succ, List.flatten_cons]
    have h24 : scBlockEmpty.length = 24 := by decide
    rw [← h24, List.drop_left]

/-- Every header read inside the 3002-block stream yields one empty scene
block. -/
theorem exC4_blk (j : Nat) (hj : j < 3002) :
    readAt exC4Data (12 + 24 * j) 24 = some scBlockEmpty := by
  have hdrop := exC4_drop j (by omega)
  unfold readAt
  rw [if_pos]
  · rw [hdrop]
    have hpos : 3002 - j = (3002 - (j + 1)) + 1 := by omega
    rw [hpos, List.replicate_succ, List.flatten_cons]
    have h24 : scBlockEmpty.length = 24 := by decide
    rw [← h24, List.take_left]
  · rw [exC4_length]
    omega

/-- Running the scan loop over the last `k` scene blocks of a stream made of
`N` empty scene blocks counts all `k` of them and ends at the end of the
stream. -/
theorem scanLoop_scrun (d : List Nat) (N : Nat) (hlen : d.length = 12 + 24 * N)
    (hblk : ∀ j, j < N → readAt d (12 + 24 * j) 24 = some scBlockEmpty) :
    ∀ k, k ≤ N → ∀ fuel c i, k < fuel →
      scanLoop d true 24 fuel (12 + 24 * (N - k)) c i = (12 + 24 * N, c + k, i) := by
  intro k
  induction k with
  | zero =>
    intro _ fuel c i hf
    cases fuel with
    | zero => omega
    | succ f =>
      have hread : readAt d (12 + 24 * (N - 0)) 24 = none := by
        unfold readAt
        rw [if_neg]
        rw [hlen]
        omega
      simp only [scanLoop]
      unfold stepBlock
      rw [hread]
      dsimp only
      norm_num
  | succ n ih =>
    intro hk fuel c i hf
    cases fuel with
    | zero => omega
    | succ f =>
      have hread : readAt d (12 + 24 * (N - (n + 1))) 24 = some scBlockEmpty :=
        hblk (N - (n + 1)) (by omega)
      have hpay : readAt d (12 + 24 * (N - (n + 1)) + 24)
          (readU32 true (scBlockEmpty.drop 4)) = some [] := by
        rw [show readU32 true (scBlockEmpty.drop 4) = 0 by decide]
        unfold readAt
        rw [if_pos]
        · simp
        · rw [hlen]
          omega
      have hstep : stepBlock d true 24 (12 + 24 * (N - (n + 1))) c i =
          .cont (12 + 24 * (N - (n + 1)) + 24 + readU32 true (scBlockEmpty.drop 4)) (c + 1) i := by
        unfold stepBlock
        rw [hread]
        dsimp only
        rw [show idStarts scBlockEmpty testBytes = false by decide,
          show idStarts scBlockEmpty scBytes = true by decide]
        simp only [Bool.false_eq_true, if_false, if_true]
        rw [hpay]
        dsimp only
        rw [show containsBytes ([].map asciiUpper) cyclesBytes = false by decide,
          show containsBytes ([].map asciiUpper) eeveeBytes = false by decide,
          show containsBytes ([].map asciiUpper) workbenchBytes = false by decide]
        simp only [Bool.false_eq_true, if_false]
      simp only [scanLoop]
      rw [hstep]
      have e2 : 12 + 24 * (N - (n + 1)) + 24 + readU32 true (scBlockEmpty.drop 4)
          = 12 + 24 * (N - n) := by
        rw [show readU32 true (scBlockEmpty.drop 4) = 0 by decide]
        omega
      rw [e2]
      dsimp only
      have e3 := ih (by omega) f (c + 1) i (by omega)
      rw [e3]
      have e4 : c + 1 + n = c + (n + 1) := by omega
      rw [e4]

/-- Byte 8 of the 3002-block stream is `v` (little-endian marker). -/
theorem exC4_getd8 : exC4Data.getD 8 0 = 118 := by
  unfold exC4Data
  rw [List.getD_append]
  · decide
  · decide

/-- The 3002-block stream's header declares little-endian. -/
theorem exC4_endianness : (headerInfo exC4Data).endianness = some "little" := by
  unfold headerInfo
  dsimp only
  rw [exC4_getd8]
  rfl

/-- On a little-endian stream of `N` empty scene blocks, `parse_blocks`
scans all `N` headers. -/
theorem parse_blocks_searched (info : BlendInfo) (data : List Nat) (N : Nat)
    (hend : info.endianness = some "little")
    (hlen : data.length = 12 + 24 * N)
    (hblk : ∀ j, j < N → readAt data (12 + 24 * j) 24 = some scBlockEmpty) :
    (parse_blocks info data (some 64)).2.2 = N := by
  unfold parse_blocks
  dsimp only
  rw [hend]
  rw [show (decide ((some "little" : Option String) ≠ some "big")) = true by decide]
  rw [show (4 + 4 + (some 64).getD 64 / 8 + 4 + 4 : Nat) = 24 by decide]
  have h := scanLoop_scrun data N hlen hblk N (le_refl _) (data.length + 1) 0 info
    (by rw [hlen]; omega)
  rw [show N - N = 0 by omega] at h
  rw [show (12 + 24 * 0 : Nat) = 12 by norm_num] at h
  rw [h]
  norm_num

/-- C4 counterexample: on a stream of 3002 empty scene blocks the decoder
scans 3002 block headers — more than the 3001 the claim allows — because
the 3000-block cap is never tested on the `SC` branch. -/
theorem blend_c4_counterexample :
    (parse_blocks (headerInfo exC4Data) exC4Data (some 64)).2.2 = 3002 :=
  parse_blocks_searched (headerInfo exC4Data) exC4Data 3002 exC4_endianness
    (by rw [exC4_length]) exC4_blk

/-- C7: at every point of the traversal — i.e. after any prefix of the entry
stream — the `found_blends` counter is at most the `scanned_entries`
counter: a matching file bumps `found` only in a step that has already
bumped `scanned`. -/
theorem scan_c7_found_le_scanned (entries : List Entry) (n : Nat) :
    (runWorker (entries.take n)).found ≤ (runWorker (entries.take n)).scanned := by
  have main : ∀ (l : List Entry) (st : WorkerState), st.found ≤ st.scanned →
      (l.foldl stepEntry st).found ≤ (l.foldl stepEntry st).scanned := by
    intro l
    induction l with
    | nil => intro st h; exact h
    | cons e t ih =>
      intro st h
      refine ih (stepEntry st e) ?_
      cases e with
      | err msg => exact h
      | ok e0 =>
        unfold stepEntry
        dsimp only
        split
        · exact Nat.le_succ_of_le h
        · split
          · exact Nat.le_succ_of_le h
          · cases e0.stat with
            | none => exact Nat.succ_le_succ h
            | some m => exact Nat.succ_le_succ h
  exact main (entries.take n) initWorker (Nat.le_refl 0)

/-- C8: in every state a job's shared fields pass through — freshly started,
result stored but status still `scanning`, and `done` — the snapshot
`poll_scan` builds has a result exactly when its status is `done`, and
when it is `done` the result is the worker's final tree-plus-flat-list. -/
theorem scan_c8_result_iff_done (entries : List Entry) (rootName rootPath : String)
    (j : JobState) (h : j ∈ jobTrace (workerResult entries rootName rootPath)) :
    ((pollSnap j).2.isSome = true ↔ (pollSnap j).1 = "done") ∧
    ((pollSnap j).1 = "done" →
      (pollSnap j).2 = some (workerResult entries rootName rootPath)) := by
  have e1 : pollSnap ⟨"scanning", none⟩ = ("scanning", none) := by
    unfold pollSnap
    dsimp only
    rw [if_neg (by decide : ¬ ("scanning" : String) = "done")]
  have e2 : ∀ r, pollSnap ⟨"scanning", some r⟩ = ("scanning", none) := fun r => by
    unfold pollSnap
    dsimp only
    rw [if_neg (by decide : ¬ ("scanning" : String) = "done")]
  have e3 : ∀ r : ScanResult, pollSnap ⟨"done", some r⟩ = ("done", some r) := fun r => by
    unfold pollSnap
    dsimp only
    rw [if_pos (rfl : ("done" : String) = "done")]
  unfold jobTrace at h
  simp only [List.mem_cons, List.not_mem_nil, or_false] at h
  rcases h with h | h | h
  · subst h
    rw [e1]
    exact ⟨⟨fun hs => by simp at hs, fun hd => absurd hd (by decide)⟩,
      fun hd => absurd hd (by decide)⟩
  · subst h
    rw [e2]
    exact ⟨⟨fun hs => by simp at hs, fun hd => absurd hd (by decide)⟩,
      fun hd => absurd hd (by decide)⟩
  · subst h
    rw [e3]
    exact ⟨⟨fun _ => rfl, fun _ => rfl⟩, fun _ => rfl⟩

/-- Witness for C8 at the `done` state of a completed empty scan. -/
theorem scan_c8_result_iff_done_witness :
    ((pollSnap ⟨"done", some (workerResult [] "r" "/r")⟩).2.isSome = true ↔
        (pollSnap ⟨"done", some (workerResult [] "r" "/r")⟩).1 = "done") ∧
    ((pollSnap ⟨"done", some (workerResult [] "r" "/r")⟩).1 = "done" →
        (pollSnap ⟨"done", some (workerResult [] "r" "/r")⟩).2 =
          some (workerResult [] "r" "/r")) :=
  scan_c8_result_iff_done [] "r" "/r" _
    (by unfold jobTrace
        exact List.mem_cons_of_mem _ (List.mem_cons_of_mem _ (List.mem_cons_self _ _)))

/-- C10: the flat list never outgrows `found_blends`, and it can be strictly
shorter: a `.blend`-matching entry whose `metadata()` call fails is counted
in `found_blends` yet contributes nothing to the flat list or the builder,
so it appears nowhere in the rendered tree. -/
theorem scan_c10_files_le_found (entries : List Entry) :
    (runWorker entries).files.length ≤ (runWorker entries).found ∧
    ((runWorker [Entry.ok exStatFail]).found = 1 ∧
     (runWorker [Entry.ok exStatFail]).files = [] ∧
     (runWorker [Entry.ok exStatFail]).builder = .mk [] [] ∧
     build_tree_nodes (runWorker [Entry.ok exStatFail]).builder "r" "/r" =
       .mk "dir" "r" "/r" none (some [])) := by
  constructor
  · have main : ∀ (l : List Entry) (st : WorkerState), st.files.length ≤ st.found →
        (l.foldl stepEntry st).files.length ≤ (l.foldl stepEntry st).found := by
      intro l
      induction l with
      | nil => intro st h; exact h
      | cons e t ih =>
        intro st h
        refine ih (stepEntry st e) ?_
        cases e with
        | err msg => exact h
        | ok e0 =>
          unfold stepEntry
          dsimp only
          split
          · exact h
          · split
            · exact h
            · cases e0.stat with
              | none => exact Nat.le_succ_of_le h
              | some m =>
                dsimp only
                rw [List.length_append]
                exact Nat.succ_le_succ h
    exact main entries initWorker (Nat.le_refl 0)
  · have hb : (runWorker [Entry.ok exStatFail]).builder = .mk [] [] := rfl
    refine ⟨rfl, rfl, hb, ?_⟩
    rw [hb]
    simp [build_tree_nodes, buildDirChildren]

/-- The empty builder is well formed. -/
theorem DWF_empty : DWF (.mk [] []) :=
  DWF.mk [] [] List.Pairwise.nil (by intro p hp; cases hp)

/-- Every key of an updated level is the inserted key or an original key. -/
theorem updateSorted_mem_keys (l : List (String × DirNode)) (k : String)
    (f : DirNode → DirNode) :
    ∀ x ∈ updateSorted l k f, x.1 = k ∨ x.1 ∈ l.map Prod.fst := by
  induction l with
  | nil =>
    intro x hx
    unfold updateSorted at hx
    rcases List.mem_singleton.mp hx with h
    exact Or.inl (by rw [h])
  | cons hd t ih =>
    intro x hx
    obtain ⟨k0, v⟩ := hd
    unfold updateSorted at hx
    by_cases h1 : k < k0
    · rw [if_pos h1] at hx
      rcases List.mem_cons.mp hx with h | h
      · exact Or.inl (by rw [h])
      · rcases List.mem_cons.mp h with h2 | h2
        · exact Or.inr (by rw [h2]; exact List.mem_cons_self _ _)
        · exact Or.inr (List.mem_cons_of_mem _ (List.mem_map_of_mem Prod.fst h2))
    · rw [if_neg h1] at hx
      by_cases h2 : k = k0
      · rw [if_pos h2] at hx
        rcases List.mem_cons.mp hx with h | h
        · exact Or.inl (by rw [h]; exact h2.symm)
        · exact Or.inr (List.mem_cons_of_mem _ (List.mem_map_of_mem Prod.fst h))
      · rw [if_neg h2] at hx
        rcases List.mem_cons.mp hx with h | h
        · exact Or.inr (by rw [h]; exact List.mem_cons_self _ _)
        · rcases ih x h with h3 | h3
          · exact Or.inl h3
          · exact Or.inr (List.mem_cons_of_mem _ h3)

/-- Updating one key keeps a level strictly sorted. -/
theorem updateSorted_pairwise (l : List (String × DirNode)) (k : String)
    (f : DirNode → DirNode) (hp : l.Pairwise (fun a b => a.1 < b.1)) :
    (updateSorted l k f).Pairwise (fun a b => a.1 < b.1) := by
  induction l with
  | nil =>
    unfold updateSorted
    exact List.pairwise_singleton _ _
  | cons hd t ih =>
    obtain ⟨k0, v⟩ := hd
    rw [List.pairwise_cons] at hp
    obtain ⟨hhead, hp'⟩ := hp
    unfold updateSorted
    by_cases h1 : k < k0
    · rw [if_pos h1]
      refine List.Pairwise.cons ?_ (List.Pairwise.cons hhead hp')
      intro b hb
      rcases List.mem_cons.mp hb with h | h
      · rw [h]; exact h1
      · exact lt_trans h1 (hhead b h)
    · rw [if_neg h1]
      by_cases h2 : k = k0
      · rw [if_pos h2]
        exact List.Pairwise.cons hhead hp'
      · rw [if_neg h2]
        refine List.Pairwise.cons ?_ (ih hp')
        intro b hb
        rcases updateSorted_mem_keys t k f b hb with h | h
        · rw [h]
          rcases lt_trichotomy k k0 with h3 | h3 | h3
          · exact absurd h3 h1
          · exact absurd h3 h2
          · exact h3
        · obtain ⟨⟨b1, b2⟩, hmem, hfst⟩ := List.mem_map.mp h
          have := hhead ⟨b1, b2⟩ hmem
          simpa [← hfst] using this

/-- Every subtree of an updated level is well formed, provided the original
subtrees were and the update function preserves well-formedness. -/
theorem updateSorted_DWF (l : List (String × DirNode)) (k : String)
    (f : DirNode → DirNode)
    (hl : ∀ p ∈ l, DWF p.2)
    (hf : ∀ d, DWF d → DWF (f d)) :
    ∀ x ∈ updateSorted l k f, DWF x.2 := by
  induction l with
  | nil =>
    intro x hx
    unfold updateSorted at hx
    rw [List.mem_singleton.mp hx]
    exact hf _ DWF_empty
  | cons hd t ih =>
    intro x hx
    obtain ⟨k0, v⟩ := hd
    unfold updateSorted at hx
    by_cases h1 : k < k0
    · rw [if_pos h1] at hx
      rcases List.mem_cons.mp hx with h | h
      · rw [h]; exact hf _ DWF_empty
      · exact hl x h
    · rw [if_neg h1] at hx
      by_cases h2 : k = k0
      · rw [if_pos h2] at hx
        rcases List.mem_cons.mp hx with h | h
        · rw [h]
          exact hf _ (hl ⟨k0, v⟩ (List.mem_cons_self _ _))
        · exact hl x (List.mem_cons_of_mem _ h)
      · rw [if_neg h2] at hx
        rcases List.mem_cons.mp hx with h | h
        · rw [h]
          exact hl ⟨k0, v⟩ (List.mem_cons_self _ _)
        · exact ih (fun p hp => hl p (List.mem_cons_of_mem _ hp)) x h

/-- The function `insert_file` keeps the builder well formed. -/
theorem insert_file_DWF : ∀ (parts : List String) (d : DirNode)
    (name path : String) (meta : FileMeta),
    DWF d → DWF (insert_file d parts name path meta) := by
  intro parts
  induction parts with
  | nil =>
    intro d name path meta hw
    obtain ⟨dirs, files⟩ := d
    cases hw with
    | mk _ _ hsort hrec =>
      exact DWF.mk _ _ hsort hrec
  | cons part rest ih =>
    intro d name path meta hw
    obtain ⟨dirs, files⟩ := d
    cases hw with
    | mk _ _ hsort hrec =>
      unfold insert_file
      refine DWF.mk _ _ (updateSorted_pairwise dirs part _ hsort) ?_
      exact updateSorted_DWF dirs part _ hrec (fun d2 hd2 => ih d2 name path meta hd2)

/-- A successful lookup returns a member of the level. -/
theorem getDir_mem (l : List (String × DirNode)) (k : String) (v : DirNode)
    (h : getDir l k = some v) : (k, v) ∈ l := by
  induction l with
  | nil => exact absurd h (by unfold getDir; simp)
  | cons hd t ih =>
    obtain ⟨k0, v0⟩ := hd
    unfold getDir at h
    by_cases h1 : k = k0
    · rw [if_pos h1] at h
      rw [h1, Option.some_inj.mp h]
      exact List.mem_cons_self _ _
    · rw [if_neg h1] at h
      exact List.mem_cons_of_mem _ (ih h)

/-- Looking up a key none of the level's entries carry fails. -/
theorem getDir_eq_none (l : List (String × DirNode)) (k : String)
    (h : ∀ b ∈ l, k ≠ b.1) : getDir l k = none := by
  induction l with
  | nil => rfl
  | cons hd t ih =>
    obtain ⟨k0, v0⟩ := hd
    unfold getDir
    rw [if_neg (h ⟨k0, v0⟩ (List.mem_cons_self _ _))]
    exact ih (fun b hb => h b (List.mem_cons_of_mem _ hb))

/-- Updating key `k` does not change lookups of other keys. -/
theorem getDir_updateSorted_ne (l : List (String × DirNode)) (k s : String)
    (f : DirNode → DirNode) (hne : s ≠ k) :
    getDir (updateSorted l k f) s = getDir l s := by
  induction l with
  | nil =>
    unfold updateSorted getDir
    rw [if_neg hne]
    rfl
  | cons hd t ih =>
    obtain ⟨k0, v⟩ := hd
    unfold updateSorted
    by_cases h1 : k < k0
    · rw [if_pos h1]
      unfold getDir
      rw [if_neg hne]
      rfl
    · rw [if_neg h1]
      by_cases h2 : k = k0
      · rw [if_pos h2]
        unfold getDir
        rw [← h2]
        rw [if_neg hne, if_neg hne]
      · rw [if_neg h2]
        unfold getDir
        by_cases h3 : s = k0
        · rw [if_pos h3, if_pos h3]
        · rw [if_neg h3, if_neg h3]
          exact ih

/-- On a sorted level, updating key `k` makes a lookup of `k` return the
updated (or freshly inserted) subtree. -/
theorem getDir_updateSorted_self (l : List (String × DirNode)) (k : String)
    (f : DirNode → DirNode) (hp : l.Pairwise (fun a b => a.1 < b.1)) :
    getDir (updateSorted l k f) k = some (f ((getDir l k).getD (.mk [] []))) := by
  induction l with
  | nil =>
    unfold updateSorted getDir
    rw [if_pos rfl]
    rfl
  | cons hd t ih =>
    obtain ⟨k0, v⟩ := hd
    rw [List.pairwise_cons] at hp
    obtain ⟨hhead, hp'⟩ := hp
    unfold updateSorted
    by_cases h1 : k < k0
    · rw [if_pos h1]
      unfold getDir
      rw [if_pos rfl]
      rw [if_neg (ne_of_lt h1),
        getDir_eq_none t k (fun b hb => ne_of_lt (lt_trans h1 (hhead b hb)))]
      rfl
    · rw [if_neg h1]
      by_cases h2 : k = k0
      · rw [if_pos h2]
        unfold getDir
        rw [if_pos h2, if_pos h2]
        rfl
      · rw [if_neg h2]
        unfold getDir
        rw [if_neg h2, if_neg h2]
        exact ih hp'

/-- Nothing is filed under the empty builder. -/
theorem fileNamesAt_empty : ∀ segs, fileNamesAt (.mk [] []) segs = [] := by
  intro segs
  cases segs with
  | nil => rfl
  | cons s rest => rfl

/-- One `insert_file` call appends exactly the inserted name at its target
directory and changes no other directory's file list. -/
theorem fileNamesAt_insert : ∀ (parts : List String) (d : DirNode)
    (name path : String) (meta : FileMeta) (segs : List String), DWF d →
    fileNamesAt (insert_file d parts name path meta) segs =
      fileNamesAt d segs ++ (if parts = segs then [name] else []) := by
  intro parts
  induction parts with
  | nil =>
    intro d name path meta segs hw
    obtain ⟨dirs, files⟩ := d
    cases segs with
    | nil =>
      unfold insert_file fileNamesAt
      rw [if_pos rfl, List.map_append]
      rfl
    | cons s rest =>
      unfold insert_file fileNamesAt
      rw [if_neg (by simp)]
      rw [List.append_nil]
  | cons part prest ih =>
    intro d name path meta segs hw
    obtain ⟨dirs, files⟩ := d
    cases hw with
    | mk _ _ hsort hrec =>
      cases segs with
      | nil =>
        unfold insert_file fileNamesAt
        rw [if_neg (by simp), List.append_nil]
      | cons s rest =>
        unfold insert_file fileNamesAt
        by_cases hs : s = part
        · subst hs
          rw [getDir_updateSorted_self dirs s _ hsort]
          have hcons : (if s :: prest = s :: rest then [name] else ([] : List String)) =
              (if prest = rest then [name] else []) := by
            by_cases h : prest = rest
            · rw [if_pos (by rw [h]), if_pos h]
            · rw [if_neg (fun hc => h (by injection hc)), if_neg h]
          cases hget : getDir dirs s with
          | none =>
            dsimp only [Option.getD]
            rw [ih (.mk [] []) name path meta rest DWF_empty]
            rw [fileNamesAt_empty, hcons]
          | some sub =>
            dsimp only [Option.getD]
            rw [ih sub name path meta rest (hrec ⟨s, sub⟩ (getDir_mem dirs s sub hget))]
            rw [hcons]
        · rw [getDir_updateSorted_ne dirs part s _ hs]
          rw [if_neg (fun hc => hs (by injection hc with h1 h2; exact h1.symm))]
          rw [List.append_nil]

/-- A sequence of inserts starting from the empty root keeps the builder
well formed. -/
theorem applyOps_DWF (ops : List InsOp) : DWF (applyOps ops) := by
  have main : ∀ (l : List InsOp) (d : DirNode), DWF d →
      DWF (l.foldl (fun d o => insert_file d o.parts o.name o.path o.meta) d) := by
    intro l
    induction l with
    | nil => intro d h; exact h
    | cons o t ih =>
      intro d h
      exact ih _ (insert_file_DWF o.parts d o.name o.path o.meta h)
  exact main ops _ DWF_empty

/-- The files recorded at any directory path are exactly the inserts that
targeted it, in call order. -/
theorem fileNamesAt_applyOps (ops : List InsOp) (segs : List String) :
    fileNamesAt (applyOps ops) segs =
      (ops.filter (fun o => o.parts = segs)).map (fun o => o.name) := by
  have main : ∀ (l : List InsOp) (d : DirNode), DWF d →
      fileNamesAt (l.foldl (fun d o => insert_file d o.parts o.name o.path o.meta) d) segs =
        fileNamesAt d segs ++ (l.filter (fun o => o.parts = segs)).map (fun o => o.name) := by
    intro l
    induction l with
    | nil =>
      intro d h
      rw [List.filter_nil, List.map_nil, List.append_nil]
      rfl
    | cons o t ih =>
      intro d h
      rw [List.foldl_cons, ih _ (insert_file_DWF o.parts d o.name o.path o.meta h),
        fileNamesAt_insert o.parts d o.name o.path o.meta segs h, List.filter_cons]
      by_cases hp : o.parts = segs
      · have h1 : (decide (o.parts = segs)) = true := by simp [hp]
        rw [if_pos hp, h1, if_pos (show (true = true) from rfl), List.map_cons,
          List.append_assoc]
        rfl
      · have h1 : (decide (o.parts = segs)) = false := by simp [hp]
        rw [if_neg hp, h1, if_neg (show ¬ (false = true) by decide), List.append_nil]
  unfold applyOps
  rw [main ops _ DWF_empty, fileNamesAt_empty]
  rfl

/-- A rendered node keeps the name it was rendered under. -/
theorem build_name (d : DirNode) (n p : String) : (build_tree_nodes d n p).name = n := by
  obtain ⟨dirs, files⟩ := d
  rw [build_tree_nodes]
  rfl

/-- Rendering a builder node yields a `dir` node. -/
theorem build_node_type (d : DirNode) (n p : String) :
    (build_tree_nodes d n p).node_type = "dir" := by
  obtain ⟨dirs, files⟩ := d
  rw [build_tree_nodes]
  rfl

/-- The directory-children loop is a map over the sorted association list. -/
theorem buildDirChildren_eq_map (l : List (String × DirNode)) (p : String) :
    buildDirChildren l p =
      l.map (fun kv => build_tree_nodes kv.2 kv.1 (pathJoin p kv.1)) := by
  induction l with
  | nil => rw [buildDirChildren, List.map_nil]
  | cons hd t ih =>
    obtain ⟨k, v⟩ := hd
    rw [buildDirChildren, List.map_cons, ih]

/-- Rendering a well-formed builder yields the shape claim C9 describes at
every level: directory children first, strictly sorted by name, then file
children. -/
theorem build_TreeSorted (d : DirNode) (hw : DWF d) :
    ∀ n p, TreeSorted (build_tree_nodes d n p) := by
  induction hw with
  | mk dirs files hsort hrec ih =>
    intro n p
    rw [build_tree_nodes]
    refine TreeSorted.dir n p (buildDirChildren dirs p)
      (files.map (fun fe => .mk "file" fe.1 fe.2.1 (some fe.2.2) none)) ?_ ?_ ?_ ?_
    · intro t ht
      rw [buildDirChildren_eq_map] at ht
      obtain ⟨kv, hkv, rfl⟩ := List.mem_map.mp ht
      exact build_node_type kv.2 kv.1 (pathJoin p kv.1)
    · intro t ht
      obtain ⟨fe, hfe, rfl⟩ := List.mem_map.mp ht
      rfl
    · rw [buildDirChildren_eq_map, List.pairwise_map]
      refine hsort.imp ?_
      intro a b hab
      rw [build_name, build_name]
      exact hab
    · intro t ht
      rw [buildDirChildren_eq_map] at ht
      obtain ⟨kv, hkv, rfl⟩ := List.mem_map.mp ht
      exact ih kv hkv kv.1 (pathJoin p kv.1)

/-- Searching the rendered directory children for name `seg` mirrors the
association-list lookup. -/
theorem find_buildDirChildren (l : List (String × DirNode)) (p seg : String) :
    (buildDirChildren l p).find? (fun c => c.node_type == "dir" && c.name == seg) =
      (getDir l seg).map (fun v => build_tree_nodes v seg (pathJoin p seg)) := by
  induction l with
  | nil => rw [buildDirChildren]; rfl
  | cons hd t ih =>
    obtain ⟨k0, v0⟩ := hd
    rw [buildDirChildren]
    by_cases hk : seg = k0
    · subst hk
      rw [List.find?_cons_of_pos _ (by
        show ((build_tree_nodes v0 seg (pathJoin p seg)).node_type == "dir" &&
          ((build_tree_nodes v0 seg (pathJoin p seg)).name == seg)) = true
        rw [build_node_type, build_name]
        simp)]
      unfold getDir
      rw [if_pos rfl]
      rfl
    · rw [List.find?_cons_of_neg _ (by
        show ¬ ((build_tree_nodes v0 k0 (pathJoin p k0)).node_type == "dir" &&
          ((build_tree_nodes v0 k0 (pathJoin p k0)).name == seg)) = true
        rw [build_node_type, build_name]
        simp only [beq_iff_eq, Bool.and_eq_true]
        exact fun hc => hk hc.2.symm)]
      unfold getDir
      rw [if_neg hk]
      exact ih

/-- Navigating the rendered tree by directory names reads off exactly the
builder's file lists. -/
theorem treeFileNamesAt_build : ∀ (segs : List String) (d : DirNode), DWF d →
    ∀ n p, treeFileNamesAt (build_tree_nodes d n p) segs = fileNamesAt d segs := by
  intro segs
  induction segs with
  | nil =>
    intro d hw n p
    obtain ⟨dirs, files⟩ := d
    rw [build_tree_nodes]
    unfold treeFileNamesAt
    dsimp only [Option.getD]
    rw [List.filter_append]
    rw [List.filter_eq_nil_iff.mpr (fun c hc => by
      rw [buildDirChildren_eq_map] at hc
      obtain ⟨kv, hkv, rfl⟩ := List.mem_map.mp hc
      rw [build_node_type]
      simp)]
    rw [List.filter_eq_self.mpr (fun c hc => by
      obtain ⟨fe, hfe, rfl⟩ := List.mem_map.mp hc
      simp [TreeNode.node_type])]
    rw [List.nil_append, List.map_map]
    rfl
  | cons seg rest ih =>
    intro d hw n p
    obtain ⟨dirs, files⟩ := d
    cases hw with
    | mk _ _ hsort hrec =>
      rw [build_tree_nodes]
      unfold treeFileNamesAt
      dsimp only [Option.getD]
      rw [List.find?_append, find_buildDirChildren dirs p seg]
      rw [show List.find? (fun c => c.node_type == "dir" && c.name == seg)
          (List.map (fun fe => TreeNode.mk "file" fe.1 fe.2.1 (some fe.2.2) none) files)
          = none from List.find?_eq_none.mpr (fun c hc => by
        obtain ⟨fe, hfe, rfl⟩ := List.mem_map.mp hc
        simp [TreeNode.node_type, TreeNode.name])]
      unfold fileNamesAt
      cases hget : getDir dirs seg with
      | none => rfl
      | some sub =>
        dsimp only [Option.map, Option.or]
        exact ih sub (hrec ⟨seg, sub⟩ (getDir_mem dirs seg sub hget)) seg (pathJoin p seg)

/-- C9: for every sequence of `insert_file` calls on an empty root, the
rendered tree has, at every directory node, all sub-directory nodes first —
strictly sorted (case-sensitively) by name — followed by the file nodes;
and the file names reached by following any directory path equal the
inserts that targeted that path, in the order `insert` was called,
independent of the file names. -/
theorem tree_c9_children_order (ops : List InsOp) (rootName rootPath : String) :
    TreeSorted (build_tree_nodes (applyOps ops) rootName rootPath) ∧
    ∀ segs, treeFileNamesAt (build_tree_nodes (applyOps ops) rootName rootPath) segs =
      (ops.filter (fun o => o.parts = segs)).map (fun o => o.name) :=
  ⟨build_TreeSorted (applyOps ops) (applyOps_DWF ops) rootName rootPath,
   fun segs => (treeFileNamesAt_build segs (applyOps ops) (applyOps_DWF ops) rootName
      rootPath).trans (fileNamesAt_applyOps ops segs)⟩
